import Mathlib

/-
  Verification development for the hotnews server (src/src/config.ts and
  src/src/http-server.ts): a shallow embedding of the aggregation
  orchestrator, the TTL cache, the rich-text HTML cleaner, the webview
  proxy rewriter and the fallback-content synthesizer, together with
  theorems about the behaviour those components exhibit.

  Strings are modelled as lists of characters (one entry per code point);
  the JS regular-expression replacements of the source are modelled by
  explicit left-to-right scanners that mirror the matching behaviour of
  the concrete patterns used in the source.
-/

namespace HotNews

set_option maxRecDepth 10000

/-- Case-insensitive prefix test on character lists; models the i flag of
the JS regular expressions in the source (all patterns involved are ASCII). -/
def ciStarts : List Char → List Char → Bool
  | [], _ => true
  | _ :: _, [] => false
  | p :: ps, c :: cs => (p.toLower == c.toLower) && ciStarts ps cs

/-- Substring occurrence test, models the JS String.includes / the notion
of one string containing another. -/
def containsSub (pat : List Char) : List Char → Bool
  | [] => pat.isEmpty
  | c :: r => pat.isPrefixOf (c :: r) || containsSub pat r

/-- String-level wrapper of containsSub. -/
def containsSubStr (pat s : String) : Bool := containsSub pat.data s.data

/-- JS whitespace class (the common members of the backslash-s class and of
String.prototype.trim); exotic unicode spaces are elided. -/
def isJsWs (c : Char) : Bool :=
  c = ' ' || c = '\t' || c = '\n' || c = '\r' ||
  c = '\u000B' || c = '\u000C' || c = '\u00A0' ||
  c = '\u2028' || c = '\u2029' || c = '\u3000' || c = '\uFEFF'

/-- Models JS String.prototype.trim on a character list. -/
def jsTrim (l : List Char) : List Char :=
  ((l.dropWhile isJsWs).reverse.dropWhile isJsWs).reverse

/-- Models the falsy-default idiom of JS: the expression x or-else d,
which yields d exactly when the string x is empty. -/
def jsStrFallback (s d : String) : String := if s = "" then d else s

/-- Consume characters up to and including the first greater-than sign;
models the regular-expression fragment consisting of a negated
greater-than class repeated, followed by a literal greater-than. -/
def chompToGt : List Char → Option (List Char)
  | [] => none
  | c :: r => if c = '>' then some r else chompToGt r

/-- Consume characters up to and including the first double quote; models
the fragment consisting of a negated double-quote class repeated, followed
by a literal double quote. -/
def chompToQuote : List Char → Option (List Char)
  | [] => none
  | c :: r => if c = '"' then some r else chompToQuote r

/-- Models JS String.prototype.startsWith. -/
def jsStartsWith (s pre : String) : Bool := pre.data.isPrefixOf s.data

/-- Splits a character list at every occurrence of a separator character;
models JS String.prototype.split with a one-character separator. -/
def splitOnChar (sep : Char) : List Char → List (List Char)
  | [] => [[]]
  | c :: r =>
    if c = sep then [] :: splitOnChar sep r
    else
      match splitOnChar sep r with
      | [] => [[c]]
      | g :: gs => (c :: g) :: gs

/-- Models JS String.prototype.replace with a plain (non-regex) string
pattern: only the first occurrence is replaced. -/
def replaceFirstAux (pat rep : List Char) : List Char → List Char
  | [] => []
  | c :: r =>
    if pat.isPrefixOf (c :: r) then rep ++ (c :: r).drop pat.length
    else c :: replaceFirstAux pat rep r

/-- String-level wrapper of replaceFirstAux; an empty pattern matches at
the start, as in JS. -/
def jsReplaceFirst (s pat rep : String) : String :=
  if pat = "" then rep ++ s
  else String.mk (replaceFirstAux pat.data rep.data s.data)

theorem chompToGt_length : ∀ {l r : List Char}, chompToGt l = some r → r.length < l.length := by
  intro l
  induction l with
  | nil => intro r h; simp [chompToGt] at h
  | cons c cs ih =>
    intro r h
    simp only [chompToGt] at h
    by_cases hc : c = '>'
    · simp [hc] at h; subst h; simp
    · simp [hc] at h
      exact Nat.lt_trans (ih h) (Nat.lt_succ_self _)

theorem chompToQuote_length : ∀ {l r : List Char}, chompToQuote l = some r → r.length < l.length := by
  intro l
  induction l with
  | nil => intro r h; simp [chompToQuote] at h
  | cons c cs ih =>
    intro r h
    simp only [chompToQuote] at h
    by_cases hc : c = '"'
    · simp [hc] at h; subst h; simp
    · simp [hc] at h
      exact Nat.lt_trans (ih h) (Nat.lt_succ_self _)

theorem isPrefixOf_length_le : ∀ {p l : List Char}, p.isPrefixOf l = true → p.length ≤ l.length := by
  intro p
  induction p with
  | nil => intro l _; simp
  | cons a as ih =>
    intro l h
    cases l with
    | nil => simp [List.isPrefixOf] at h
    | cons b bs =>
      simp only [List.isPrefixOf, Bool.and_eq_true] at h
      simpa using ih h.2

theorem ciStarts_length_le : ∀ {p l : List Char}, ciStarts p l = true → p.length ≤ l.length := by
  intro p
  induction p with
  | nil => intro l _; simp
  | cons a as ih =>
    intro l h
    cases l with
    | nil => simp [ciStarts] at h
    | cons b bs =>
      simp only [ciStarts, Bool.and_eq_true] at h
      simpa using ih h.2

theorem length_dropWhile_le (p : Char → Bool) (l : List Char) :
    (l.dropWhile p).length ≤ l.length := by
  induction l with
  | nil => simp
  | cons c cs ih =>
    by_cases hc : p c
    · simp only [List.dropWhile, hc]
      exact Nat.le_trans ih (Nat.le_succ _)
    · simp [List.dropWhile, hc]

/-- A single left-to-right pass of a global JS regex replacement.  The
step function inspects the current suffix: a match yields the replacement
text and the (strictly shorter) remainder after the match, and scanning
resumes there; otherwise one character is emitted and scanning moves on.
The natural-number argument is an upper bound on the number of steps and
equals the length of the scanned list at the top-level call, which always
suffices because every match consumes at least one character. -/
def scanReplAux (step : (l : List Char) → Option (List Char × { r : List Char // r.length < l.length })) :
    Nat → List Char → List Char
  | 0, l => l
  | _ + 1, [] => []
  | n + 1, c :: tl =>
    match step (c :: tl) with
    | some (rep, ⟨rest, _⟩) => rep ++ scanReplAux step n rest
    | none => c :: scanReplAux step n tl

/-- Global regex replacement over a whole character list. -/
def scanRepl (step : (l : List Char) → Option (List Char × { r : List Char // r.length < l.length })) (l : List Char) : List Char :=
  scanReplAux step l.length l

theorem scanReplAux_fuel_irrel (step : (l : List Char) → Option (List Char × { r : List Char // r.length < l.length })) :
    ∀ (m n : Nat) (l : List Char), l.length ≤ m → l.length ≤ n →
      scanReplAux step m l = scanReplAux step n l := by
  intro m
  induction m with
  | zero =>
    intro n l hm _
    have : l = [] := List.eq_nil_of_length_eq_zero (Nat.le_zero.mp hm)
    subst this
    cases n <;> simp [scanReplAux]
  | succ m ih =>
    intro n l hm hn
    cases l with
    | nil => cases n <;> simp [scanReplAux]
    | cons c tl =>
      cases n with
      | zero => simp at hn
      | succ n =>
        simp only [scanReplAux]
        cases hstep : step (c :: tl) with
        | none =>
          have h1 : tl.length ≤ m := Nat.lt_succ_iff.mp hm
          have h2 : tl.length ≤ n := Nat.lt_succ_iff.mp hn
          rw [ih n tl h1 h2]
        | some pr =>
          obtain ⟨rep, rest, hlt⟩ := pr
          have h1 : rest.length ≤ m := Nat.lt_succ_iff.mp (Nat.lt_of_lt_of_le hlt hm)
          have h2 : rest.length ≤ n := Nat.lt_succ_iff.mp (Nat.lt_of_lt_of_le hlt hn)
          show rep ++ scanReplAux step m rest = rep ++ scanReplAux step n rest
          rw [ih n rest h1 h2]

/-- If the step function never fires on suffixes of a list, the
replacement pass leaves it unchanged. -/
theorem scanReplAux_id (step : (l : List Char) → Option (List Char × { r : List Char // r.length < l.length }))
    (P : Char → Prop)
    (hstep : ∀ l : List Char, (∀ c ∈ l, P c) → step l = none) :
    ∀ (n : Nat) (l : List Char), (∀ c ∈ l, P c) → scanReplAux step n l = l := by
  intro n
  induction n with
  | zero => intro l _; simp [scanReplAux]
  | succ n ih =>
    intro l hl
    cases l with
    | nil => simp [scanReplAux]
    | cons c tl =>
      simp only [scanReplAux]
      rw [hstep (c :: tl) hl]
      simp only []
      rw [ih tl (fun x hx => hl x (List.mem_cons_of_mem _ hx))]

theorem scanRepl_id (step : (l : List Char) → Option (List Char × { r : List Char // r.length < l.length }))
    (P : Char → Prop)
    (hstep : ∀ l : List Char, (∀ c ∈ l, P c) → step l = none)
    (l : List Char) (hl : ∀ c ∈ l, P c) : scanRepl step l = l :=
  scanReplAux_id step P hstep l.length l hl

theorem chompToGt_le {l r : List Char} (h : chompToGt l = some r) : r.length ≤ l.length :=
  le_of_lt (chompToGt_length h)

theorem length_drop_le (n : Nat) (l : List Char) : (l.drop n).length ≤ l.length := by
  simp [List.length_drop]

/-- Finds the first case-insensitive occurrence of the closing tag of the
given name and returns the remainder after it; models the lazy dot-star
followed by the closing tag under the s and i regex flags. -/
def chompCloseCI (tag : List Char) : List Char → Option (List Char)
  | [] => none
  | c :: r =>
    if ciStarts ('<' :: '/' :: (tag ++ ['>'])) (c :: r) then
      some ((c :: r).drop (tag.length + 3))
    else chompCloseCI tag r

theorem chompCloseCI_le : ∀ {tag l r : List Char}, chompCloseCI tag l = some r → r.length ≤ l.length := by
  intro tag l
  induction l with
  | nil => intro r h; simp [chompCloseCI] at h
  | cons c cs ih =>
    intro r h
    simp only [chompCloseCI] at h
    split at h
    · simp only [Option.some.injEq] at h
      subst h
      exact length_drop_le _ _
    · exact Nat.le_trans (ih h) (Nat.le_succ _)

/-- Matcher for one block of an unsupported tag, placed after the leading
left angle bracket: the tag name (case-insensitively), any run of
characters other than a greater-than sign, a greater-than sign, then the
shortest stretch of text up to the matching close tag.  Models the regex
built in the unsupported-tag loop of cleanHtmlForRichText. -/
def tagBlockInner (tag r : List Char) : Option (List Char) :=
  if ciStarts tag r then
    match chompToGt (r.drop tag.length) with
    | none => none
    | some afterOpen => chompCloseCI tag afterOpen
  else none

theorem tagBlockInner_le {tag r x : List Char} (h : tagBlockInner tag r = some x) :
    x.length ≤ r.length := by
  unfold tagBlockInner at h
  split at h
  · split at h
    · simp at h
    · next afterOpen hgt =>
      have h1 := chompCloseCI_le h
      have h2 := chompToGt_le hgt
      have h3 := length_drop_le tag.length r
      omega
  · simp at h

/-- Step function of the unsupported-tag removal pass for one tag. -/
def stepTag (tag : List Char) (l : List Char) :
    Option (List Char × { r : List Char // r.length < l.length }) :=
  match l with
  | '<' :: r =>
    match h : tagBlockInner tag r with
    | some rest =>
      some ([], ⟨rest, by
        have := tagBlockInner_le h
        simp only [List.length_cons]
        omega⟩)
    | none => none
  | _ => none

/-- The unsupported-tag list, in source order. -/
def unsupportedTags : List String :=
  ["script", "style", "iframe", "object", "embed", "form", "input",
   "button", "nav", "header", "footer", "aside", "canvas", "svg"]

/-- First cleaning stage of cleanHtmlForRichText: for each unsupported tag
in order, globally remove every complete block of that tag. -/
def removeUnsupported (l : List Char) : List Char :=
  unsupportedTags.foldl (fun acc tag => scanRepl (stepTag tag.data) acc) l

/-- Alternation between the div and span tag names (source order). -/
def altDivSpan (l : List Char) : Option (List Char) :=
  if ("div".data).isPrefixOf l then some (l.drop 3)
  else if ("span".data).isPrefixOf l then some (l.drop 4)
  else none

theorem altDivSpan_le {l r : List Char} (h : altDivSpan l = some r) : r.length ≤ l.length := by
  unfold altDivSpan at h
  split at h
  · simp only [Option.some.injEq] at h; subst h; exact length_drop_le _ _
  · split at h
    · simp only [Option.some.injEq] at h; subst h; exact length_drop_le _ _
    · simp at h

/-- Matcher for the empty div/span pass, placed after the leading left
angle bracket: a div or span name, a run of characters other than a
greater-than sign, a greater-than sign, optional whitespace, then a
closing div or span tag.  Models the second replace of
cleanHtmlForRichText. -/
def edsInner (r : List Char) : Option (List Char) :=
  match altDivSpan r with
  | none => none
  | some r1 =>
    match chompToGt r1 with
    | none => none
    | some r2 =>
      match r2.dropWhile isJsWs with
      | '<' :: '/' :: r4 =>
        match altDivSpan r4 with
        | none => none
        | some r5 =>
          match r5 with
          | '>' :: r6 => some r6
          | _ => none
      | _ => none

theorem edsInner_le {r x : List Char} (h : edsInner r = some x) : x.length ≤ r.length := by
  unfold edsInner at h
  split at h
  · simp at h
  · next r1 h1 =>
    split at h
    · simp at h
    · next r2 h2 =>
      split at h
      · next r4 h4 =>
        split at h
        · simp at h
        · next r5 h5 =>
          split at h
          · next r6 =>
            simp only [Option.some.injEq] at h
            subst h
            have a1 := altDivSpan_le h1
            have a2 := chompToGt_le h2
            have a4 : r2.dropWhile isJsWs = '<' :: '/' :: r4 := h4
            have a4l : r4.length + 2 ≤ r2.length := by
              have := length_dropWhile_le isJsWs r2
              rw [a4] at this
              simpa using this
            have a5 := altDivSpan_le h5
            simp only [List.length_cons] at *
            omega
          · simp at h
      · simp at h

/-- Step function of the empty div/span removal pass. -/
def stepEmptyDivSpan (l : List Char) :
    Option (List Char × { r : List Char // r.length < l.length }) :=
  match l with
  | '<' :: r =>
    match h : edsInner r with
    | some rest =>
      some ([], ⟨rest, by
        have := edsInner_le h
        simp only [List.length_cons]
        omega⟩)
    | none => none
  | _ => none

/-- The style text appended to every img tag by cleanHtmlForRichText. -/
def imgStyleSuffix : String :=
  " style=\"max-width:100%;height:auto;display:block;margin:10px 0;\">"

/-- Step function of the img pass: an img tag (a left angle bracket, the
letters img, a run of non-greater-than characters, a greater-than sign)
is rewritten keeping the captured attribute text and appending the
responsive style attribute. -/
def stepImg (l : List Char) :
    Option (List Char × { r : List Char // r.length < l.length }) :=
  match l with
  | '<' :: 'i' :: 'm' :: 'g' :: r =>
    match h : chompToGt r with
    | some rest =>
      some ("<img".data ++ r.takeWhile (fun c => c ≠ '>') ++ imgStyleSuffix.data,
        ⟨rest, by
          have := chompToGt_length h
          simp only [List.length_cons]
          omega⟩)
    | none => none
  | _ => none

/-- One plain attribute alternative of the attribute-stripping regex:
the attribute name, an equals sign, a double quote, then everything up to
the closing double quote. -/
def attrTail (name : List Char) (r : List Char) : Option (List Char) :=
  if name.isPrefixOf r then
    match r.drop name.length with
    | '=' :: '"' :: rest => chompToQuote rest
    | _ => none
  else none

theorem attrTail_le {name r x : List Char} (h : attrTail name r = some x) : x.length ≤ r.length := by
  unfold attrTail at h
  split at h
  · split at h
    · next rest heq =>
      have h1 := le_of_lt (chompToQuote_length h)
      have h2 : rest.length + 2 ≤ r.length := by
        have := length_drop_le name.length r
        rw [heq] at this
        simpa using this
      omega
    · simp at h
  · simp at h

/-- The data-dash alternative: the literal data-, any run of characters
other than an equals sign, an equals sign, a double quote, then everything
up to the closing double quote. -/
def dataAttrTail (r : List Char) : Option (List Char) :=
  if ("data-".data).isPrefixOf r then
    match (r.drop 5).dropWhile (fun c => c ≠ '=') with
    | '=' :: '"' :: rest => chompToQuote rest
    | _ => none
  else none

theorem dataAttrTail_le {r x : List Char} (h : dataAttrTail r = some x) : x.length ≤ r.length := by
  unfold dataAttrTail at h
  split at h
  · split at h
    · next rest heq =>
      have h1 := le_of_lt (chompToQuote_length h)
      have h2 : rest.length + 2 ≤ (r.drop 5).length := by
        have := length_dropWhile_le (fun c => c ≠ '=') (r.drop 5)
        rw [heq] at this
        simpa using this
      have h3 := length_drop_le 5 r
      omega
    · simp at h
  · simp at h

/-- The attribute alternation, tried in source order: id, class,
data-dash, onclick, onload, onerror. -/
def attrAltAt (r : List Char) : Option (List Char) :=
  match attrTail "id".data r with
  | some x => some x
  | none =>
    match attrTail "class".data r with
    | some x => some x
    | none =>
      match dataAttrTail r with
      | some x => some x
      | none =>
        match attrTail "onclick".data r with
        | some x => some x
        | none =>
          match attrTail "onload".data r with
          | some x => some x
          | none => attrTail "onerror".data r

theorem attrAltAt_le {r x : List Char} (h : attrAltAt r = some x) : x.length ≤ r.length := by
  unfold attrAltAt at h
  split at h
  · next heq => simp only [Option.some.injEq] at h; subst h; exact attrTail_le heq
  · split at h
    · next heq => simp only [Option.some.injEq] at h; subst h; exact attrTail_le heq
    · split at h
      · next heq => simp only [Option.some.injEq] at h; subst h; exact dataAttrTail_le heq
      · split at h
        · next heq => simp only [Option.some.injEq] at h; subst h; exact attrTail_le heq
        · split at h
          · next heq => simp only [Option.some.injEq] at h; subst h; exact attrTail_le heq
          · exact attrTail_le h

/-- Step function of the attribute-stripping pass: one whitespace
character, then one of the attribute alternatives; the whole match
(including the whitespace) is removed. -/
def stepAttr (l : List Char) :
    Option (List Char × { r : List Char // r.length < l.length }) :=
  match l with
  | c :: r =>
    if isJsWs c then
      match h : attrAltAt r with
      | some rest =>
        some ([], ⟨rest, by
          have := attrAltAt_le h
          simp only [List.length_cons]
          omega⟩)
      | none => none
    else none
  | [] => none

/-- Alternation between the div, section and article tag names (source
order), used by the structural-tag collapsing pass. -/
def altStruct (l : List Char) : Option (List Char) :=
  if ("div".data).isPrefixOf l then some (l.drop 3)
  else if ("section".data).isPrefixOf l then some (l.drop 7)
  else if ("article".data).isPrefixOf l then some (l.drop 7)
  else none

theorem altStruct_le {l r : List Char} (h : altStruct l = some r) : r.length ≤ l.length := by
  unfold altStruct at h
  split at h
  · simp only [Option.some.injEq] at h; subst h; exact length_drop_le _ _
  · split at h
    · simp only [Option.some.injEq] at h; subst h; exact length_drop_le _ _
    · split at h
      · simp only [Option.some.injEq] at h; subst h; exact length_drop_le _ _
      · simp at h

/-- Step function of the structural-open-tag pass: an opening div, section
or article tag is rewritten to an opening p tag keeping the captured
attribute text. -/
def stepOpenStruct (l : List Char) :
    Option (List Char × { r : List Char // r.length < l.length }) :=
  match l with
  | '<' :: r =>
    match h1 : altStruct r with
    | some r1 =>
      match h2 : chompToGt r1 with
      | some rest =>
        some ("<p".data ++ r1.takeWhile (fun c => c ≠ '>') ++ ['>'],
          ⟨rest, by
            have a1 := altStruct_le h1
            have a2 := chompToGt_length h2
            simp only [List.length_cons]
            omega⟩)
      | none => none
    | none => none
  | _ => none

/-- Step function of the structural-close-tag pass: a closing div, section
or article tag is rewritten to a closing p tag. -/
def stepCloseStruct (l : List Char) :
    Option (List Char × { r : List Char // r.length < l.length }) :=
  if h1 : ("</div>".data).isPrefixOf l then
    some ("</p>".data, ⟨l.drop 6, by
      have := isPrefixOf_length_le h1
      simp only [List.length_drop]
      simp at this
      omega⟩)
  else if h2 : ("</section>".data).isPrefixOf l then
    some ("</p>".data, ⟨l.drop 10, by
      have := isPrefixOf_length_le h2
      simp only [List.length_drop]
      simp at this
      omega⟩)
  else if h3 : ("</article>".data).isPrefixOf l then
    some ("</p>".data, ⟨l.drop 10, by
      have := isPrefixOf_length_le h3
      simp only [List.length_drop]
      simp at this
      omega⟩)
  else none

/-- Matcher for an opening p tag placed after the leading left angle
bracket and the letter p: a run of non-greater-than characters, then a
greater-than sign. -/
def nestedInner (r : List Char) : Option (List Char) :=
  match chompToGt r with
  | none => none
  | some r1 =>
    match r1.dropWhile isJsWs with
    | '<' :: 'p' :: r3 => chompToGt r3
    | _ => none

theorem nestedInner_le {r x : List Char} (h : nestedInner r = some x) : x.length ≤ r.length := by
  unfold nestedInner at h
  split at h
  · simp at h
  · next r1 h1 =>
    split at h
    · next r3 h3 =>
      have a1 := chompToGt_le h1
      have a3 : r3.length + 2 ≤ r1.length := by
        have := length_dropWhile_le isJsWs r1
        rw [h3] at this
        simpa using this
      have a4 := chompToGt_le h
      omega
    · simp at h

/-- Step function of the nested-p pass: two consecutive opening p tags
separated only by whitespace are rewritten to a single plain opening p
tag. -/
def stepNestedP (l : List Char) :
    Option (List Char × { r : List Char // r.length < l.length }) :=
  match l with
  | '<' :: 'p' :: r =>
    match h : nestedInner r with
    | some rest =>
      some ("<p>".data, ⟨rest, by
        have := nestedInner_le h
        simp only [List.length_cons]
        omega⟩)
    | none => none
  | _ => none

/-- Step function of the double-closing-p pass: two consecutive closing p
tags separated only by whitespace are rewritten to a single closing p
tag. -/
def stepDoubleCloseP (l : List Char) :
    Option (List Char × { r : List Char // r.length < l.length }) :=
  if h1 : ("</p>".data).isPrefixOf l then
    match h2 : (l.drop 4).dropWhile isJsWs with
    | r2 =>
      if h3 : ("</p>".data).isPrefixOf r2 then
        some ("</p>".data, ⟨r2.drop 4, by
          have a1 := isPrefixOf_length_le h1
          have a2 : r2.length ≤ (l.drop 4).length := by
            rw [← h2]; exact length_dropWhile_le _ _
          have a3 := isPrefixOf_length_le h3
          simp only [List.length_drop] at *
          simp at a1 a3
          omega⟩)
      else none
  else none

/-- Matcher for the empty-p pass placed after the leading left angle
bracket and the letter p: a run of non-greater-than characters, a
greater-than sign, optional whitespace, then a closing p tag. -/
def emptyPInner (r : List Char) : Option (List Char) :=
  match chompToGt r with
  | none => none
  | some r1 =>
    let r2 := r1.dropWhile isJsWs
    if ("</p>".data).isPrefixOf r2 then some (r2.drop 4) else none

theorem emptyPInner_le {r x : List Char} (h : emptyPInner r = some x) : x.length ≤ r.length := by
  unfold emptyPInner at h
  split at h
  · simp at h
  · next r1 h1 =>
    simp only [] at h
    split at h
    · simp only [Option.some.injEq] at h
      subst h
      have a1 := chompToGt_le h1
      have a2 := length_dropWhile_le isJsWs r1
      have a3 := length_drop_le 4 (r1.dropWhile isJsWs)
      omega
    · simp at h

/-- Step function of the empty-p removal pass. -/
def stepEmptyP (l : List Char) :
    Option (List Char × { r : List Char // r.length < l.length }) :=
  match l with
  | '<' :: 'p' :: r =>
    match h : emptyPInner r with
    | some rest =>
      some ([], ⟨rest, by
        have := emptyPInner_le h
        simp only [List.length_cons]
        omega⟩)
    | none => none
  | _ => none

/-- Step function of the tag-stripping pass used to compute the text-only
content: any left angle bracket, a run of non-greater-than characters and
a greater-than sign are removed. -/
def stepStripTag (l : List Char) :
    Option (List Char × { r : List Char // r.length < l.length }) :=
  match l with
  | '<' :: r =>
    match h : chompToGt r with
    | some rest =>
      some ([], ⟨rest, by
        have := chompToGt_length h
        simp only [List.length_cons]
        omega⟩)
    | none => none
  | _ => none

/-- Shallow embedding of cleanHtmlForRichText (src/src/config.ts): the
falsy-input placeholder, the unsupported-tag removal, the empty div/span
removal, the img style injection, the attribute stripping, the structural
tag collapsing, the nested/empty p cleanup, the minimum-text check and
the length truncation. -/
def cleanHtmlForRichText (html : String) : String :=
  if html = "" then "<p>暂无内容</p>"
  else
    let c1 := removeUnsupported html.data
    let c2 := scanRepl stepEmptyDivSpan c1
    let c3 := scanRepl stepImg c2
    let c4 := scanRepl stepAttr c3
    let c5 := scanRepl stepOpenStruct c4
    let c6 := scanRepl stepCloseStruct c5
    let c7 := scanRepl stepNestedP c6
    let c8 := scanRepl stepDoubleCloseP c7
    let c9 := scanRepl stepEmptyP c8
    let textContent := jsTrim (scanRepl stepStripTag c9)
    if textContent.length < 10 then "<p>内容正在加载中，请稍后...</p>"
    else if c9.length > 50000 then String.mk (c9.take 50000 ++ ("...</p>").data)
    else String.mk c9

/-! ### Source registry (src/src/config.ts) -/

/-- One entry of the source registry. -/
structure HotNewsSource where
  name : String
  description : String
deriving DecidableEq

/-- HOT_NEWS_SOURCES: the immutable id-to-source table. -/
def HOT_NEWS_SOURCES : Nat → Option HotNewsSource
  | 1 => some ⟨"zhihuHot", "Zhihu Hot List (知乎热榜)"⟩
  | 2 => some ⟨"36Ke", "36Kr Hot List (36氪热榜)"⟩
  | 3 => some ⟨"baiduRD", "Baidu Hot Discussion (百度热点)"⟩
  | 4 => some ⟨"bili", "Bilibili Hot List (B站热榜)"⟩
  | 5 => some ⟨"wbHot", "Weibo Hot Search (微博热搜)"⟩
  | 6 => some ⟨"douyinHot", "Douyin Hot List (抖音热点)"⟩
  | 7 => some ⟨"huPu", "Hupu Hot List (虎扑热榜)"⟩
  | 8 => some ⟨"douban", "Douban Hot List (豆瓣热榜)"⟩
  | 9 => some ⟨"itNews", "IT News (IT新闻)"⟩
  | _ => none

/-- getMaxSourceId: the largest key of HOT_NEWS_SOURCES. -/
def getMaxSourceId : Nat := 9

/-! ### Data model (src/src/http-server.ts) -/

/-- The hot field of a news item is a string or a number in JS. -/
inductive HotVal where
  | str (s : String)
  | num (n : Int)
deriving DecidableEq

/-- HotNewsItem. -/
structure NewsItem where
  index : Nat
  title : String
  url : String
  hot : Option HotVal
deriving DecidableEq

/-- The per-source result shape assembled by fetchSingleSource and by the
fallback generator. -/
structure SourceResult where
  name : String
  subtitle : String
  update_time : String
  data : List NewsItem
deriving DecidableEq

/-- The shape returned by fetchArticleContent and
generateFallbackContent. -/
structure ArticleContent where
  title : String
  content : String
  summary : String
deriving DecidableEq

/-! ### SimpleCache (src/src/http-server.ts)

The JS Map backing the cache is modelled as an association list of
key, data and expiry-timestamp triples; clock readings are naturals
(milliseconds, as produced by Date.now). -/

/-- The cache state. -/
def Cache (α : Type) : Type := List (String × α × Nat)

/-- SimpleCache.set: stores the value with expiry now plus the TTL in
minutes; any previous entry for the key is superseded. -/
def cacheSet {α : Type} (c : Cache α) (key : String) (data : α) (ttlMinutes now : Nat) : Cache α :=
  (key, data, now + ttlMinutes * 60 * 1000) :: c.filter (fun e => e.1 ≠ key)

/-- SimpleCache.get: returns the stored data unless the entry is missing
or the clock has passed its expiry, in which case the entry is deleted
and the read reports absence.  Returns the read result together with the
cache state after the read. -/
def cacheGet {α : Type} (c : Cache α) (key : String) (now : Nat) : Option α × Cache α :=
  match c.find? (fun e => e.1 = key) with
  | none => (none, c.filter (fun e => e.1 ≠ key))
  | some e =>
    if now > e.2.2 then (none, c.filter (fun x => x.1 ≠ key))
    else (some e.2.1, c)

/-- SimpleCache.clear. -/
def cacheClear {α : Type} (_ : Cache α) : Cache α := []

/-! ### Fallback data and the aggregation orchestrator -/

/-- getFallbackSiteData: the placeholder per-source result.  The current
wall-clock string (new Date toLocaleString in the source) is passed in as
a parameter.  For an id outside the registry the source returns null,
modelled as none. -/
def getFallbackSiteData (sourceId : Nat) (nowString : String) : Option SourceResult :=
  match HOT_NEWS_SOURCES sourceId with
  | none => none
  | some source =>
    let siteName :=
      match ((splitOnChar '(' source.description.data).map String.mk)[1]? with
      | some part => jsStrFallback (jsReplaceFirst part ")" "") source.description
      | none => source.description
    some
      { name := siteName
        subtitle := "热榜"
        update_time := nowString
        data :=
          [ { index := 1, title := "数据加载中，请稍候...", url := "#", hot := some (.num 0) },
            { index := 2, title := "网络连接缓慢，正在重试", url := "#", hot := some (.num 0) } ] }

/-- The settling state of one per-source fetch promise, as observed by
Promise.allSettled. -/
inductive SettledR where
  | fulfilled (v : SourceResult)
  | rejected

/-- Which way the race inside getHotNews went: the joint settlement won
before the timer (with the given per-index outcomes), the timer fired
first (the per-index outcomes then being the eventual settlements awaited
in the timeout handler), or the fan-out itself threw a non-timeout
error. -/
inductive RaceOutcome where
  | settled (out : Nat → SettledR)
  | timedOut (out : Nat → SettledR)
  | setupError

/-- The per-index entry pushed by the assembly loops of getHotNews: the
fulfilled value, or the fallback data for the requested id. -/
def settledEntry (r : SettledR) (sid : Nat) (nowString : String) : Option SourceResult :=
  match r with
  | .fulfilled v => some v
  | .rejected => getFallbackSiteData sid nowString

/-- The assembly loop of getHotNews: one entry per requested id, walked
with an index counter. -/
def assembleResults (out : Nat → SettledR) (nowString : String) : Nat → List Nat → List (Option SourceResult)
  | _, [] => []
  | i, sid :: rest => settledEntry (out i) sid nowString :: assembleResults out nowString (i + 1) rest

/-- The cache key computed by getHotNews. -/
def aggCacheKey (sources : List Nat) : String :=
  "hotnews_" ++ String.intercalate "_" (sources.map (fun n => toString n))

/-- Shallow embedding of getHotNews (src/src/http-server.ts): check the
cache; on a miss, race the joint settlement of the per-source fetches
against the timer.  If the settlement wins, assemble one entry per id
(fallback data for rejected fetches) and cache for five minutes; if the
timer wins, await the settlements and assemble likewise, caching for two
minutes; on any other error produce fallback data for every id without
caching.  Returns the result list together with the cache state. -/
def getHotNews (cache : Cache (List (Option SourceResult))) (sources : List Nat)
    (race : RaceOutcome) (now : Nat) (nowString : String) :
    List (Option SourceResult) × Cache (List (Option SourceResult)) :=
  let key := aggCacheKey sources
  let g := cacheGet cache key now
  match g.1 with
  | some v => (v, g.2)
  | none =>
    match race with
    | .settled out =>
      let results := assembleResults out nowString 0 sources
      (results, cacheSet g.2 key results 5 now)
    | .timedOut out =>
      let results := assembleResults out nowString 0 sources
      (results, cacheSet g.2 key results 2 now)
    | .setupError =>
      (sources.map (fun sid => getFallbackSiteData sid nowString), g.2)

/-- The entry that the aggregation produces for position i and requested
id sid, for each race outcome. -/
def entryFor (race : RaceOutcome) (i sid : Nat) (nowString : String) : Option SourceResult :=
  match race with
  | .settled out => settledEntry (out i) sid nowString
  | .timedOut out => settledEntry (out i) sid nowString
  | .setupError => getFallbackSiteData sid nowString

/-! ### URL model

The source uses the WHATWG URL builtin (new URL), which is not part of
the repository; it is modelled here for hierarchical scheme://host/path
URLs, the shapes exercised by the webview rewriter and by the fallback
generator. -/

/-- A parsed URL. -/
structure UrlModel where
  scheme : String
  host : String
  path : String
deriving DecidableEq

/-- Splits a character list at the first occurrence of the
colon-slash-slash separator of hierarchical URLs. -/
def splitScheme : List Char → Option (List Char × List Char)
  | [] => none
  | c :: r =>
    if (("://").data).isPrefixOf (c :: r) then some ([], (c :: r).drop 3)
    else
      match splitScheme r with
      | some (a, b) => some (c :: a, b)
      | none => none

/-- Modelled from the spec: the one-argument new URL builtin, simplified
to hierarchical scheme://host/path URLs; none models the TypeError that
new URL throws on unparseable input. -/
def parseUrl (s : String) : Option UrlModel :=
  match splitScheme s.data with
  | none => none
  | some (sch, rest) =>
    if sch.isEmpty then none
    else
      let host := rest.takeWhile (fun c => c ≠ '/')
      let path := rest.dropWhile (fun c => c ≠ '/')
      if host.isEmpty then none
      else some ⟨String.mk sch, String.mk host, if path.isEmpty then "/" else String.mk path⟩

/-- Whether a reference begins with a URL scheme (letters, digits, plus,
minus or dot followed by a colon), making it absolute. -/
def refHasScheme (s : String) : Bool :=
  let pre := s.data.takeWhile (fun c => c ≠ ':')
  !pre.isEmpty && decide (pre.length < s.data.length) &&
    pre.all (fun x => x.isAlpha || x.isDigit || x = '+' || x = '-' || x = '.') &&
    (pre.headD ' ').isAlpha

/-- The directory part of a path: everything up to and including the last
slash. -/
def dirPath (p : String) : String :=
  String.mk ((p.data.reverse.dropWhile (fun c => c ≠ '/')).reverse)

/-- Modelled from the spec: the two-argument new URL builtin, resolving a
reference against a base URL; simplified to scheme-absolute,
protocol-relative, root-relative and path-relative references. -/
def resolveUrl (base : UrlModel) (ref : String) : Option UrlModel :=
  if refHasScheme ref then parseUrl ref
  else if jsStartsWith ref "//" then parseUrl (base.scheme ++ ":" ++ ref)
  else if jsStartsWith ref "/" then some { base with path := ref }
  else if ref = "" then some base
  else some { base with path := dirPath base.path ++ ref }

/-- Serialization of a URL, the toString used after resolution. -/
def urlToString (u : UrlModel) : String := u.scheme ++ "://" ++ u.host ++ u.path

/-! ### HTML document model and the webview rewriter
(processHtmlForWebview, fetchArticleHtml in src/src/http-server.ts)

The source parses pages with the cheerio library, which is external to
the repository; the transform is therefore modelled directly on the node
tree, with tag names taken to be lowercase as produced by an HTML
parser. -/

/-- A node of the parsed HTML document. -/
inductive HNode where
  | elem (tag : String) (attrs : List (String × String)) (children : List HNode)
  | text (s : String)

/-- First attribute value for a name, as cheerio attr reads it. -/
def getAttr : List (String × String) → String → Option String
  | [], _ => none
  | (a, v) :: rest, k => if a = k then some v else getAttr rest k

/-- Sets an attribute value, as cheerio attr writes it. -/
def setAttrVal : List (String × String) → String → String → List (String × String)
  | [], k, v => [(k, v)]
  | (a, w) :: rest, k, v => if a = k then (k, v) :: rest else (a, w) :: setAttrVal rest k v

/-- Removal of every element with the given tag name anywhere in the
tree; models the cheerio tag-selector remove calls. -/
def removeElemsByTag (t : String) : List HNode → List HNode
  | [] => []
  | .elem tg a ch :: rest =>
    if tg = t then removeElemsByTag t rest
    else .elem tg a (removeElemsByTag t ch) :: removeElemsByTag t rest
  | .text s :: rest => .text s :: removeElemsByTag t rest

/-- The class tokens of a class attribute value. -/
def splitClasses (s : String) : List String :=
  ((splitOnChar ' ' s.data).map String.mk).filter (fun x => x ≠ "")

/-- Whether an element matches the ad-removal selector of the source: a
class token ad or advertisement, or a class or id attribute containing
the text ad-dash. -/
def isAdElem (attrs : List (String × String)) : Bool :=
  let cls := (getAttr attrs "class").getD ""
  let idv := (getAttr attrs "id").getD ""
  (splitClasses cls).contains "ad" || (splitClasses cls).contains "advertisement" ||
    containsSubStr "ad-" cls || containsSubStr "ad-" idv

/-- Removal of every ad-matching element anywhere in the tree. -/
def removeAdElems : List HNode → List HNode
  | [] => []
  | .elem tg a ch :: rest =>
    if isAdElem a then removeAdElems rest
    else .elem tg a (removeAdElems ch) :: removeAdElems rest
  | .text s :: rest => .text s :: removeAdElems rest

/-- The img src rewrite of processHtmlForWebview: a present, non-empty
src that does not start with the literal http and does not start with
data-colon is resolved against the page URL; a resolution failure leaves
the attribute unchanged (the catch branch of the source). -/
def rewriteSrcAttrs (base : UrlModel) (attrs : List (String × String)) : List (String × String) :=
  match getAttr attrs "src" with
  | none => attrs
  | some src =>
    if src = "" then attrs
    else if jsStartsWith src "http" then attrs
    else if jsStartsWith src "data:" then attrs
    else
      match resolveUrl base src with
      | some u => setAttrVal attrs "src" (urlToString u)
      | none => attrs

/-- Applies the img src rewrite to every img element in the tree. -/
def rewriteImgSrcs (base : UrlModel) : List HNode → List HNode
  | [] => []
  | .elem tg a ch :: rest =>
    .elem tg (if tg = "img" then rewriteSrcAttrs base a else a)
      (rewriteImgSrcs base ch) :: rewriteImgSrcs base rest
  | .text s :: rest => .text s :: rewriteImgSrcs base rest

/-- The stylesheet href rewrite: a present, non-empty href that does not
start with the literal http is resolved against the page URL. -/
def rewriteHrefAttrs (base : UrlModel) (attrs : List (String × String)) : List (String × String) :=
  match getAttr attrs "href" with
  | none => attrs
  | some href =>
    if href = "" then attrs
    else if jsStartsWith href "http" then attrs
    else
      match resolveUrl base href with
      | some u => setAttrVal attrs "href" (urlToString u)
      | none => attrs

/-- Applies the href rewrite to every stylesheet link element (tag link
with rel equal to stylesheet). -/
def rewriteStylesheetLinks (base : UrlModel) : List HNode → List HNode
  | [] => []
  | .elem tg a ch :: rest =>
    .elem tg (if tg = "link" && getAttr a "rel" == some "stylesheet" then rewriteHrefAttrs base a else a)
      (rewriteStylesheetLinks base ch) :: rewriteStylesheetLinks base rest
  | .text s :: rest => .text s :: rewriteStylesheetLinks base rest

/-- The mobile style block appended to the head by the source. -/
def mobileCss : String :=
  "\n          body \x7b \n            font-size: 16px !important; \n            line-height: 1.6 !important;\n            padding: 10px !important;\n            margin: 0 !important;\n            word-wrap: break-word !important;\n          \x7d\n          img \x7b \n            max-width: 100% !important; \n            height: auto !important; \n            display: block !important;\n            margin: 10px 0 !important;\n          \x7d\n          .sidebar, .ads, .advertisement, [class*=\"sidebar\"], [class*=\"nav\"] \x7b\n            display: none !important;\n          \x7d\n          p, div, article \x7b \n            max-width: 100% !important;\n            overflow-wrap: break-word !important;\n          \x7d\n        "

/-- The nodes appended to the head: the viewport meta tag and the mobile
style block. -/
def mobileAppendNodes : List HNode :=
  [ .elem "meta"
      [("name", "viewport"),
       ("content", "width=device-width, initial-scale=1.0, maximum-scale=1.0, user-scalable=no")] [],
    .elem "style" [] [.text mobileCss] ]

/-- Appends the mobile nodes to the children of every head element. -/
def appendMobileHead : List HNode → List HNode
  | [] => []
  | .elem tg a ch :: rest =>
    .elem tg a (if tg = "head" then appendMobileHead ch ++ mobileAppendNodes else appendMobileHead ch)
      :: appendMobileHead rest
  | .text s :: rest => .text s :: appendMobileHead rest

/-- The tree-level webview transform, in source order: remove script
elements, remove iframe elements, remove ad elements, absolutize img
sources, absolutize stylesheet links, append the mobile head block. -/
def processHtmlForWebviewDoc (base : UrlModel) (doc : List HNode) : List HNode :=
  appendMobileHead
    (rewriteStylesheetLinks base
      (rewriteImgSrcs base
        (removeAdElems
          (removeElemsByTag "iframe"
            (removeElemsByTag "script" doc)))))

/-- Void elements, serialized without a closing tag. -/
def voidTags : List String :=
  ["area", "base", "br", "col", "embed", "hr", "img", "input", "link",
   "meta", "param", "source", "track", "wbr"]

/-- Raw-text elements, whose text children are serialized unescaped. -/
def rawTextTags : List String := ["script", "style"]

/-- HTML text-node escaping used by the serializer. -/
def escTextChar (c : Char) : List Char :=
  if c = '&' then "&amp;".data
  else if c = '<' then "&lt;".data
  else if c = '>' then "&gt;".data
  else [c]

/-- HTML attribute-value escaping used by the serializer. -/
def escAttrChar (c : Char) : List Char :=
  if c = '&' then "&amp;".data
  else if c = '"' then "&quot;".data
  else [c]

def escText (s : String) : String :=
  String.mk (s.data.foldr (fun c acc => escTextChar c ++ acc) [])

def escAttr (s : String) : String :=
  String.mk (s.data.foldr (fun c acc => escAttrChar c ++ acc) [])

def renderAttrs : List (String × String) → String
  | [] => ""
  | (k, v) :: rest => " " ++ k ++ "=\"" ++ escAttr v ++ "\"" ++ renderAttrs rest

/-- Serialization of the text children of a raw-text element. -/
def rawText : List HNode → String
  | [] => ""
  | .text s :: rest => s ++ rawText rest
  | .elem _ _ _ :: rest => rawText rest

/-- The HTML serializer, models the cheerio html call. -/
def renderNodes : List HNode → String
  | [] => ""
  | .text s :: rest => escText s ++ renderNodes rest
  | .elem tg a ch :: rest =>
    if voidTags.contains tg then
      "<" ++ tg ++ renderAttrs a ++ ">" ++ renderNodes rest
    else if rawTextTags.contains tg then
      "<" ++ tg ++ renderAttrs a ++ ">" ++ rawText ch ++ "</" ++ tg ++ ">" ++ renderNodes rest
    else
      "<" ++ tg ++ renderAttrs a ++ ">" ++ renderNodes ch ++ "</" ++ tg ++ ">" ++ renderNodes rest

/-- Shallow embedding of processHtmlForWebview: the whole transform runs
inside a try block whose catch returns the input text unchanged.  The
only step of the transform that can throw on well-formed trees is the URL
parse of the page address, so a parse failure models the catch branch:
the original, unprocessed HTML text is returned. -/
def processHtmlForWebview (doc : List HNode) (rawHtml originalUrl : String) : String :=
  match parseUrl originalUrl with
  | none => rawHtml
  | some base => renderNodes (processHtmlForWebviewDoc base doc)

/-- generateErrorHtml: the synthesized error page, with the page address
and the failure message interpolated verbatim. -/
def generateErrorHtml (url errorMessage : String) : String :=
  "
      <!DOCTYPE html>
      <html>
      <head>
        <meta charset=\"utf-8\">
        <meta name=\"viewport\" content=\"width=device-width, initial-scale=1.0\">
        <title>页面加载失败</title>
        <style>
          body \x7b
            font-family: -apple-system, BlinkMacSystemFont, \x27Segoe UI\x27, Arial, sans-serif;
            padding: 20px;
            background: #f5f5f5;
            color: #333;
            line-height: 1.6;
          \x7d
          .error-container \x7b
            background: white;
            border-radius: 8px;
            padding: 30px;
            text-align: center;
            box-shadow: 0 2px 10px rgba(0,0,0,0.1);
          \x7d
          .error-icon \x7b
            font-size: 48px;
            margin-bottom: 20px;
          \x7d
          .error-title \x7b
            font-size: 24px;
            font-weight: bold;
            margin-bottom: 10px;
            color: #d73a49;
          \x7d
          .error-message \x7b
            color: #666;
            margin-bottom: 20px;
          \x7d
          .error-url \x7b
            background: #f6f8fa;
            padding: 10px;
            border-radius: 4px;
            word-break: break-all;
            font-family: monospace;
            font-size: 14px;
            margin-bottom: 20px;
          \x7d
          .retry-btn \x7b
            background: #0366d6;
            color: white;
            border: none;
            padding: 10px 20px;
            border-radius: 4px;
            cursor: pointer;
            font-size: 16px;
          \x7d
        </style>
      </head>
      <body>
        <div class=\"error-container\">
          <div class=\"error-icon\">⚠️</div>
          <div class=\"error-title\">页面加载失败</div>
          <div class=\"error-message\">无法加载页面内容，可能是网络连接问题或网站访问限制。</div>
          <div class=\"error-url\">" ++ url ++ "</div>
          <div class=\"error-message\">错误详情：" ++ errorMessage ++ "</div>
          <button class=\"retry-btn\" onclick=\"location.reload()\">重试</button>
        </div>
      </body>
      </html>
    "

/-- The outcome of the page fetch performed by fetchArticleHtml: the
network call is external to the repository, so the fetched document (its
parse tree together with its raw text) or the failure message is a
parameter. -/
inductive FetchHtmlOutcome where
  | success (doc : List HNode) (raw : String)
  | failure (message : String)

/-- Shallow embedding of fetchArticleHtml: on fetch success the page is
processed for the webview; on fetch failure the synthesized error page is
returned. -/
def fetchArticleHtml (url : String) (outcome : FetchHtmlOutcome) : String :=
  match outcome with
  | .success doc raw => processHtmlForWebview doc raw url
  | .failure msg => generateErrorHtml url msg

/-! ### Fallback content synthesis (generateFallbackContent and its
helpers in src/src/http-server.ts) -/

/-- getSiteName: hostname-substring platform naming. -/
def getSiteName (hostname : String) : String :=
  if containsSubStr "zhihu.com" hostname then "知乎"
  else if containsSubStr "36kr.com" hostname then "36氪"
  else if containsSubStr "bilibili.com" hostname || containsSubStr "b23.tv" hostname then "B站"
  else if containsSubStr "weibo.com" hostname then "微博"
  else if containsSubStr "douyin.com" hostname then "抖音"
  else if containsSubStr "hupu.com" hostname then "虎扑"
  else if containsSubStr "douban.com" hostname then "豆瓣"
  else if containsSubStr "baidu.com" hostname then "百度"
  else "未知网站"

/-- getPlatformDescription: hostname-substring platform blurb. -/
def getPlatformDescription (hostname : String) : String :=
  if containsSubStr "zhihu.com" hostname then
    "知乎是中文互联网高质量的问答社区，汇聚了各行各业的专业人士分享知识、经验和见解。"
  else if containsSubStr "36kr.com" hostname then
    "36氪是中国领先的科技创业媒体，专注报道创业公司、投资机构和科技趋势。"
  else if containsSubStr "bilibili.com" hostname then
    "B站是中国年轻人聚集的文化社区，涵盖动画、游戏、科技、生活等多元化内容。"
  else "这是一个热门的中文网站，提供丰富的资讯和内容。"

/-- The fallback content block for bilibili links. -/
def biliFallbackContent (siteName summary url pdesc : String) : String :=
  "
        <div class=\"fallback-content\">
          <div class=\"content-notice\">
            <h3>🎬 视频内容预览</h3>
            <p><strong>来源：</strong>" ++ siteName ++ "</p>
            <p><strong>说明：</strong>这是一个B站视频链接，无法直接在此页面播放。</p>
          </div>

          <div class=\"content-summary\">
            <h4>📋 内容简介</h4>
            <p>" ++ summary ++ "</p>
          </div>

          <div class=\"access-options\">
            <h4>🎥 观看方式</h4>
            <ul>
              <li><strong>直接观看：</strong><a " ++ "href=\"" ++ url ++ "\"" ++ " target=\"_blank\">点击这里打开B站观看</a></li>
              <li><strong>推荐设备：</strong>建议在手机或电脑上观看，获得更好的体验</li>
              <li><strong>互动功能：</strong>B站支持弹幕、评论、点赞等丰富的互动功能</li>
              <li><strong>相关推荐：</strong>观看后可以发现更多相似的优质内容</li>
            </ul>
          </div>

          <div class=\"platform-info\">
            <h4>💡 关于B站</h4>
            <p>" ++ pdesc ++ "</p>
            <p><strong>特色：</strong>弹幕文化、UP主创作、二次元内容、学习视频、生活记录等。</p>
          </div>
        </div>
      "

/-- The fallback content block for every other site. -/
def generalFallbackContent (siteName summary url pdesc : String) : String :=
  "
      <div class=\"fallback-content\">
        <div class=\"content-notice\">
          <h3>📚 内容预览</h3>
          <p><strong>来源：</strong>" ++ siteName ++ "</p>
          <p><strong>说明：</strong>由于网站的访问保护机制，我们无法直接获取完整内容。</p>
        </div>

        <div class=\"content-summary\">
          <h4>📋 内容摘要</h4>
          <p>" ++ summary ++ "</p>
        </div>

        <div class=\"access-options\">
          <h4>🔗 查看方式</h4>
          <ul>
            <li><strong>直接访问：</strong><a " ++ "href=\"" ++ url ++ "\"" ++ " target=\"_blank\">点击这里查看原文</a></li>
            <li><strong>建议：</strong>在浏览器中打开链接以获得最佳阅读体验</li>
            <li><strong>提示：</strong>原文可能包含更丰富的内容、图片和互动功能</li>
          </ul>
        </div>

        <div class=\"platform-info\">
          <h4>💡 平台特色</h4>
          <p>" ++ pdesc ++ "</p>
        </div>
      </div>
    "

/-- Shallow embedding of generateFallbackContent: the hostname is taken
from the parsed URL (new URL at the head of the source function; none
models the TypeError it throws on unparseable input), the platform is
named by hostname substring matching, and one of two fixed content blocks
is produced with the summary, the address and the platform description
interpolated.  Pure, no network access. -/
def generateFallbackContent (url title summary : String) : Option ArticleContent :=
  match parseUrl url with
  | none => none
  | some u =>
    let hostname := u.host
    let siteName := getSiteName hostname
    if containsSubStr "b23.tv" hostname || containsSubStr "bilibili.com" hostname then
      some
        { title := jsStrFallback title "B站热门视频"
          content := biliFallbackContent siteName summary url (getPlatformDescription hostname)
          summary := jsStrFallback summary "点击链接观看B站视频内容。" }
    else
      some
        { title := jsStrFallback title "热门内容"
          content := generalFallbackContent siteName
            (jsStrFallback summary "这是一个热门话题，吸引了众多用户的关注和讨论。") url
            (getPlatformDescription hostname)
          summary := jsStrFallback summary "由于访问限制，请点击链接查看原文内容。" }

/-! ### Observation functions on documents -/

/-- The src attributes of the img elements of a tree, in document
order. -/
def imgSrcs : List HNode → List (Option String)
  | [] => []
  | .elem tg a ch :: rest =>
    (if tg = "img" then [getAttr a "src"] else []) ++ imgSrcs ch ++ imgSrcs rest
  | .text _ :: rest => imgSrcs rest

/-- Whether a tree contains a script element. -/
def hasScriptElem : List HNode → Bool
  | [] => false
  | .elem tg _ ch :: rest => tg = "script" || hasScriptElem ch || hasScriptElem rest
  | .text _ :: rest => hasScriptElem rest

/-- The per-attribute src rewrite that the claims describe: what a single
img src value becomes under the webview transform. -/
def resolvedSrc (base : UrlModel) (src : String) : String :=
  if src = "" then src
  else if jsStartsWith src "http" then src
  else if jsStartsWith src "data:" then src
  else
    match resolveUrl base src with
    | some u => urlToString u
    | none => src

/-! ### Cache lemmas and the cache claims -/

theorem find?_filter_ne {α : Type} (l : List (String × α × Nat)) (k : String) :
    (l.filter (fun e => e.1 ≠ k)).find? (fun e => e.1 = k) = none := by
  induction l with
  | nil => rfl
  | cons e rest ih =>
    by_cases he : e.1 = k
    · simpa [List.filter, he] using ih
    · simpa [List.filter, he, List.find?] using ih

/-- C5, amended: after set, a get at time now returns the stored value
exactly when now is at most the expiry instant (the source keeps the
entry when the clock equals the expiry, evicting only strictly past it);
past the expiry the read reports absence and the entry is evicted; and a
repeated read returns the same result as the first. -/
theorem c5_cache_get_set {α : Type} (c : Cache α) (k : String) (v : α) (t now0 now : Nat) :
    ((cacheGet (cacheSet c k v t now0) k now).1
      = if now ≤ now0 + t * 60 * 1000 then some v else none)
  ∧ (now0 + t * 60 * 1000 < now →
      ((cacheGet (cacheSet c k v t now0) k now).2.find? (fun e => e.1 = k) = none))
  ∧ ((cacheGet ((cacheGet (cacheSet c k v t now0) k now).2) k now).1
      = (cacheGet (cacheSet c k v t now0) k now).1) := by
  have hset : cacheSet c k v t now0 = (k, v, now0 + t * 60 * 1000) :: c.filter (fun e => e.1 ≠ k) := rfl
  by_cases hle : now ≤ now0 + t * 60 * 1000
  · have hget : cacheGet (cacheSet c k v t now0) k now = (some v, cacheSet c k v t now0) := by
      simp [cacheGet, hset, List.find?]
      omega
    refine ⟨?_, ?_, ?_⟩
    · rw [hget]; simp [hle]
    · intro hlt; omega
    · rw [hget]
      show (cacheGet (cacheSet c k v t now0) k now).1 = some v
      rw [hget]
  · have hgt : now0 + t * 60 * 1000 < now := by omega
    have hget : cacheGet (cacheSet c k v t now0) k now
        = (none, ((k, v, now0 + t * 60 * 1000) :: c.filter (fun e => e.1 ≠ k)).filter (fun x => x.1 ≠ k)) := by
      simp [cacheGet, hset, List.find?]
      omega
    refine ⟨?_, ?_, ?_⟩
    · rw [hget]; simp [hle]
    · intro _
      rw [hget]
      exact find?_filter_ne _ k
    · rw [hget]
      show (cacheGet (List.filter (fun x => x.1 ≠ k) _) k now).1 = none
      unfold cacheGet
      rw [find?_filter_ne]

/-- C5 counterexample to the claim as stated: with a one-minute TTL set
at time zero, a read at exactly the expiry instant (sixty thousand
milliseconds) still returns the stored value although the claimed
condition, clock strictly below the expiry, fails. -/
theorem c5_counterexample :
    (cacheGet (cacheSet ([] : Cache Nat) "k" 7 1 0) "k" 60000).1 = some 7
    ∧ ¬(60000 < 0 + 1 * 60 * 1000) := by
  constructor
  · rfl
  · decide

/-- C5 witness: the amended statement evaluated at concrete inputs. -/
theorem c5_witness :
    ((cacheGet (cacheSet ([] : Cache Nat) "k" 42 5 0) "k" 1000).1
      = if 1000 ≤ 0 + 5 * 60 * 1000 then some 42 else none)
  ∧ (0 + 5 * 60 * 1000 < 1000 →
      ((cacheGet (cacheSet ([] : Cache Nat) "k" 42 5 0) "k" 1000).2.find? (fun e => e.1 = "k") = none))
  ∧ ((cacheGet ((cacheGet (cacheSet ([] : Cache Nat) "k" 42 5 0) "k" 1000).2) "k" 1000).1
      = (cacheGet (cacheSet ([] : Cache Nat) "k" 42 5 0) "k" 1000).1) :=
  c5_cache_get_set ([] : Cache Nat) "k" 42 5 0 1000

/-! ### Aggregation lemmas and the aggregation claims -/

theorem assembleResults_length (out : Nat → SettledR) (nowString : String) :
    ∀ (n : Nat) (l : List Nat), (assembleResults out nowString n l).length = l.length
  | _, [] => rfl
  | n, _ :: rest => by
    simp [assembleResults, assembleResults_length out nowString (n + 1) rest]

theorem assembleResults_getElem? (out : Nat → SettledR) (nowString : String) :
    ∀ (n i : Nat) (l : List Nat),
      (assembleResults out nowString n l)[i]?
        = (l[i]?).map (fun sid => settledEntry (out (n + i)) sid nowString)
  | _, _, [] => by simp [assembleResults]
  | n, 0, sid :: rest => by simp [assembleResults]
  | n, i + 1, sid :: rest => by
    simp only [assembleResults, List.getElem?_cons_succ]
    rw [assembleResults_getElem? out nowString (n + 1) i rest]
    simp only [show n + 1 + i = n + (i + 1) from by omega]

/-- C1: on a cache miss, for every requested id sequence and every race
outcome (all fetches settled, deadline hit first, or fan-out error), the
aggregation returns exactly one entry per requested id, and the entry at
each position is determined by that position's requested id: the
fulfilled per-source value there, or the fallback data for that id. -/
theorem c1_getHotNews_length_and_order
    (cache : Cache (List (Option SourceResult))) (sources : List Nat) (race : RaceOutcome)
    (now : Nat) (nowString : String)
    (hne : sources ≠ [])
    (hrange : ∀ s ∈ sources, 1 ≤ s ∧ s ≤ getMaxSourceId)
    (hmiss : (cacheGet cache (aggCacheKey sources) now).1 = none) :
    (getHotNews cache sources race now nowString).1.length = sources.length
    ∧ ∀ i : Nat, ((getHotNews cache sources race now nowString).1)[i]?
        = (sources[i]?).map (fun sid => entryFor race i sid nowString) := by
  unfold getHotNews
  simp only [hmiss]
  cases race with
  | settled out =>
    constructor
    · simp [assembleResults_length]
    · intro i
      simp [assembleResults_getElem?, entryFor]
  | timedOut out =>
    constructor
    · simp [assembleResults_length]
    · intro i
      simp [assembleResults_getElem?, entryFor]
  | setupError =>
    constructor
    · simp
    · intro i
      simp [List.getElem?_map, entryFor]

/-- C1 witness: a two-id request with every fetch rejected, starting from
the empty cache. -/
theorem c1_witness :
    (([1, 2] : List Nat) ≠ [])
    ∧ (∀ s ∈ ([1, 2] : List Nat), 1 ≤ s ∧ s ≤ getMaxSourceId)
    ∧ ((cacheGet ([] : Cache (List (Option SourceResult))) (aggCacheKey [1, 2]) 0).1 = none)
    ∧ (getHotNews [] [1, 2] (.settled fun _ => .rejected) 0 "now").1.length = 2
    ∧ ((getHotNews [] [1, 2] (.settled fun _ => .rejected) 0 "now").1)[0]?
        = some (entryFor (.settled fun _ => .rejected) 0 1 "now") := by
  have h := c1_getHotNews_length_and_order ([] : Cache (List (Option SourceResult))) [1, 2]
    (.settled fun _ => .rejected) 0 "now" (by decide) (by decide) (by rfl)
  refine ⟨by decide, by decide, by rfl, by simpa using h.1, by simpa using h.2 0⟩

/-- C6: on a cache miss, a fully settled aggregation is cached under the
computed key with expiry five minutes from now, and a deadline-truncated
aggregation is cached under the same key with expiry two minutes from
now; in both cases the cached value is the returned result list. -/
theorem c6_getHotNews_cache_ttls
    (cache : Cache (List (Option SourceResult))) (sources : List Nat) (out : Nat → SettledR)
    (now : Nat) (nowString : String)
    (hmiss : (cacheGet cache (aggCacheKey sources) now).1 = none) :
    ((getHotNews cache sources (.settled out) now nowString).2.find? (fun e => e.1 = aggCacheKey sources)
      = some (aggCacheKey sources,
          (getHotNews cache sources (.settled out) now nowString).1, now + 5 * 60 * 1000))
    ∧ ((getHotNews cache sources (.timedOut out) now nowString).2.find? (fun e => e.1 = aggCacheKey sources)
      = some (aggCacheKey sources,
          (getHotNews cache sources (.timedOut out) now nowString).1, now + 2 * 60 * 1000)) := by
  unfold getHotNews
  simp only [hmiss]
  constructor
  · simp [cacheSet, List.find?]
  · simp [cacheSet, List.find?]

/-- C6 witness: a singleton request with a rejected fetch, starting from
the empty cache. -/
theorem c6_witness :
    ((cacheGet ([] : Cache (List (Option SourceResult))) (aggCacheKey [3]) 0).1 = none)
    ∧ ((getHotNews [] [3] (.settled fun _ => .rejected) 0 "t").2.find? (fun e => e.1 = aggCacheKey [3])
        = some (aggCacheKey [3], (getHotNews [] [3] (.settled fun _ => .rejected) 0 "t").1, 0 + 5 * 60 * 1000))
    ∧ ((getHotNews [] [3] (.timedOut fun _ => .rejected) 0 "t").2.find? (fun e => e.1 = aggCacheKey [3])
        = some (aggCacheKey [3], (getHotNews [] [3] (.timedOut fun _ => .rejected) 0 "t").1, 0 + 2 * 60 * 1000)) := by
  have h := c6_getHotNews_cache_ttls ([] : Cache (List (Option SourceResult))) [3]
    (fun _ => .rejected) 0 "t" (by rfl)
  exact ⟨by rfl, h.1, h.2⟩

/-- C10: on a cache miss, a requested id outside the registry whose fetch
rejects still occupies its position in the result (the length invariant
holds), but that entry is the null produced by the fallback generator for
unknown ids, not a populated fallback result. -/
theorem c10_unknown_id_null_entry
    (cache : Cache (List (Option SourceResult))) (sources : List Nat) (out : Nat → SettledR)
    (now : Nat) (nowString : String) (i sid : Nat)
    (hmiss : (cacheGet cache (aggCacheKey sources) now).1 = none)
    (hget : sources[i]? = some sid)
    (hna : HOT_NEWS_SOURCES sid = none)
    (hrej : out i = SettledR.rejected) :
    ((getHotNews cache sources (.settled out) now nowString).1)[i]? = some none
    ∧ (getHotNews cache sources (.settled out) now nowString).1.length = sources.length := by
  unfold getHotNews
  simp only [hmiss]
  constructor
  · simp only [assembleResults_getElem?, Nat.zero_add, hget, Option.map_some, hrej]
    simp [settledEntry, getFallbackSiteData, hna]
  · simp [assembleResults_length]

/-- C10 witness: requested id ten, which is outside the registry. -/
theorem c10_witness :
    ((cacheGet ([] : Cache (List (Option SourceResult))) (aggCacheKey [10]) 0).1 = none)
    ∧ (([10] : List Nat)[0]? = some 10)
    ∧ (HOT_NEWS_SOURCES 10 = none)
    ∧ ((getHotNews [] [10] (.settled fun _ => .rejected) 0 "t").1)[0]? = some none
    ∧ (getHotNews [] [10] (.settled fun _ => .rejected) 0 "t").1.length = 1 := by
  have h := c10_unknown_id_null_entry ([] : Cache (List (Option SourceResult))) [10]
    (fun _ => .rejected) 0 "t" 0 10 (by rfl) (by rfl) (by rfl) (by rfl)
  exact ⟨by rfl, by rfl, by rfl, h.1, by simpa using h.2⟩

/-! ### The rich-text cleaner claims -/

/-- C4, amended: the cleaner bounds its output at the 50000-character
ceiling plus the seven-character ellipsis-and-closing-tag suffix that the
source appends after truncating, so every output has length at most
50007. -/
theorem length_mk (l : List Char) : (String.mk l).length = l.length := rfl

theorem mk_take_suffix_length (l : List Char) :
    (String.mk (l.take 50000 ++ ("...</p>").data)).length ≤ 50007 := by
  rw [length_mk, List.length_append, List.length_take]
  have h7 : ("...</p>").data.length = 7 := rfl
  rw [h7]
  omega

theorem c4_length_bound (html : String) : (cleanHtmlForRichText html).length ≤ 50007 := by
  unfold cleanHtmlForRichText
  by_cases h : html = ""
  · rw [if_pos h]
    decide
  · rw [if_neg h]
    simp only []
    split
    · decide
    · split
      · next hgt => exact mk_take_suffix_length _
      · next hle =>
        rw [length_mk]
        omega

theorem stepTag_none_a (tag : List Char) :
    ∀ l : List Char, (∀ c ∈ l, c = 'a') → stepTag tag l = none := by
  intro l hl
  cases l with
  | nil => rfl
  | cons c r =>
    have hc : c = 'a' := hl c (List.mem_cons_self c r)
    subst hc
    rfl

theorem stepEmptyDivSpan_none_a :
    ∀ l : List Char, (∀ c ∈ l, c = 'a') → stepEmptyDivSpan l = none := by
  intro l hl
  cases l with
  | nil => rfl
  | cons c r =>
    have hc : c = 'a' := hl c (List.mem_cons_self c r)
    subst hc
    rfl

theorem stepImg_none_a :
    ∀ l : List Char, (∀ c ∈ l, c = 'a') → stepImg l = none := by
  intro l hl
  cases l with
  | nil => rfl
  | cons c r =>
    have hc : c = 'a' := hl c (List.mem_cons_self c r)
    subst hc
    rfl

theorem stepAttr_none_a :
    ∀ l : List Char, (∀ c ∈ l, c = 'a') → stepAttr l = none := by
  intro l hl
  cases l with
  | nil => rfl
  | cons c r =>
    have hc : c = 'a' := hl c (List.mem_cons_self c r)
    subst hc
    simp [stepAttr, isJsWs]

theorem stepOpenStruct_none_a :
    ∀ l : List Char, (∀ c ∈ l, c = 'a') → stepOpenStruct l = none := by
  intro l hl
  cases l with
  | nil => rfl
  | cons c r =>
    have hc : c = 'a' := hl c (List.mem_cons_self c r)
    subst hc
    rfl

theorem stepCloseStruct_none_a :
    ∀ l : List Char, (∀ c ∈ l, c = 'a') → stepCloseStruct l = none := by
  intro l hl
  cases l with
  | nil => rfl
  | cons c r =>
    have hc : c = 'a' := hl c (List.mem_cons_self c r)
    subst hc
    rfl

theorem stepNestedP_none_a :
    ∀ l : List Char, (∀ c ∈ l, c = 'a') → stepNestedP l = none := by
  intro l hl
  cases l with
  | nil => rfl
  | cons c r =>
    have hc : c = 'a' := hl c (List.mem_cons_self c r)
    subst hc
    rfl

theorem stepDoubleCloseP_none_a :
    ∀ l : List Char, (∀ c ∈ l, c = 'a') → stepDoubleCloseP l = none := by
  intro l hl
  cases l with
  | nil => rfl
  | cons c r =>
    have hc : c = 'a' := hl c (List.mem_cons_self c r)
    subst hc
    rfl

theorem stepEmptyP_none_a :
    ∀ l : List Char, (∀ c ∈ l, c = 'a') → stepEmptyP l = none := by
  intro l hl
  cases l with
  | nil => rfl
  | cons c r =>
    have hc : c = 'a' := hl c (List.mem_cons_self c r)
    subst hc
    rfl

theorem stepStripTag_none_a :
    ∀ l : List Char, (∀ c ∈ l, c = 'a') → stepStripTag l = none := by
  intro l hl
  cases l with
  | nil => rfl
  | cons c r =>
    have hc : c = 'a' := hl c (List.mem_cons_self c r)
    subst hc
    rfl

theorem foldl_scanRepl_a (tags : List String) (l : List Char) (hl : ∀ c ∈ l, c = 'a') :
    tags.foldl (fun acc tag => scanRepl (stepTag tag.data) acc) l = l := by
  induction tags with
  | nil => rfl
  | cons t ts ih =>
    simp only [List.foldl]
    rw [scanRepl_id (stepTag t.data) (fun c => c = 'a') (stepTag_none_a t.data) l hl]
    exact ih

theorem clean_letterRun :
    cleanHtmlForRichText (String.mk (List.replicate 50001 'a'))
      = String.mk ((List.replicate 50001 'a').take 50000 ++ ("...</p>").data) := by
  have hl : ∀ c ∈ List.replicate 50001 'a', c = 'a' := fun c hc => List.eq_of_mem_replicate hc
  have hid : ∀ (step : (l : List Char) → Option (List Char × { r : List Char // r.length < l.length })),
      (∀ l, (∀ c ∈ l, c = 'a') → step l = none) →
      scanRepl step (List.replicate 50001 'a') = List.replicate 50001 'a' :=
    fun step hstep => scanRepl_id step (fun c => c = 'a') hstep _ hl
  have hne : ¬(String.mk (List.replicate 50001 'a') = "") := by
    intro hcontra
    have h2 : (50001 : Nat) = 0 :=
      calc (50001 : Nat) = (List.replicate 50001 'a').length := (List.length_replicate _ _).symm
        _ = (String.mk (List.replicate 50001 'a')).data.length := rfl
        _ = ("" : String).data.length := by rw [hcontra]
        _ = 0 := rfl
    exact absurd h2 (by omega)
  have hdw : List.dropWhile isJsWs (List.replicate 50001 'a') = List.replicate 50001 'a' := by
    rw [show List.replicate 50001 'a' = 'a' :: List.replicate 50000 'a' from rfl]
    rw [List.dropWhile_cons, if_neg (by decide)]
  have htrim : jsTrim (List.replicate 50001 'a') = List.replicate 50001 'a' := by
    unfold jsTrim
    rw [hdw, List.reverse_replicate, hdw, List.reverse_replicate]
  unfold cleanHtmlForRichText
  rw [if_neg hne]
  simp only [show (String.mk (List.replicate 50001 'a')).data = List.replicate 50001 'a' from rfl]
  rw [show removeUnsupported (List.replicate 50001 'a') = List.replicate 50001 'a' from
        foldl_scanRepl_a unsupportedTags _ hl,
      hid stepEmptyDivSpan stepEmptyDivSpan_none_a,
      hid stepImg stepImg_none_a,
      hid stepAttr stepAttr_none_a,
      hid stepOpenStruct stepOpenStruct_none_a,
      hid stepCloseStruct stepCloseStruct_none_a,
      hid stepNestedP stepNestedP_none_a,
      hid stepDoubleCloseP stepDoubleCloseP_none_a,
      hid stepEmptyP stepEmptyP_none_a,
      hid stepStripTag stepStripTag_none_a,
      htrim]
  rw [if_neg (by rw [List.length_replicate]; omega),
      if_pos (by rw [List.length_replicate]; omega)]

/-- C4 counterexample to the claim as stated: a run of 50001 letters is
truncated to 50000 characters and then the seven-character suffix is
appended, so the output length is 50007, above the claimed 50000
ceiling. -/
theorem c4_counterexample :
    (cleanHtmlForRichText (String.mk (List.replicate 50001 'a'))).length = 50007
    ∧ ¬((cleanHtmlForRichText (String.mk (List.replicate 50001 'a'))).length ≤ 50000) := by
  have h7 : ("...</p>").data.length = 7 := rfl
  constructor
  · rw [clean_letterRun, length_mk, List.length_append, List.length_take, List.length_replicate, h7]
    omega
  · rw [clean_letterRun, length_mk, List.length_append, List.length_take, List.length_replicate, h7]
    omega

/-- C9: the cleaner maps the empty string to the fixed no-content
placeholder, which is not the empty string; being a total function of the
input text, the embedded transform cannot fail. -/
theorem c9_empty_input_placeholder :
    cleanHtmlForRichText "" = "<p>暂无内容</p>" ∧ ("<p>暂无内容</p>" : String) ≠ "" := by
  refine ⟨rfl, ?_⟩
  decide

/-- C3: evaluation of the cleaner at the failing input.  An unclosed
script tag is not touched by the tag-block regex (which requires a
matching close tag), so the disallowed tag survives into the output
verbatim. -/
theorem c3_unclosed_script_survives :
    cleanHtmlForRichText "<script>0123456789abc" = "<script>0123456789abc"
    ∧ containsSubStr "<script" (cleanHtmlForRichText "<script>0123456789abc") = true := by
  have h : cleanHtmlForRichText "<script>0123456789abc" = "<script>0123456789abc" := by decide
  refine ⟨h, ?_⟩
  rw [h]
  decide

/-! ### Substring lemmas -/

theorem isPrefixOf_append_self : ∀ (p t : List Char), p.isPrefixOf (p ++ t) = true
  | [], t => by simp [List.isPrefixOf]
  | c :: ps, t => by simp [List.isPrefixOf, isPrefixOf_append_self ps t]

theorem containsSub_of_isPrefixOf {p l : List Char} (h : p.isPrefixOf l = true) :
    containsSub p l = true := by
  cases l with
  | nil =>
    cases p with
    | nil => rfl
    | cons c ps => simp [List.isPrefixOf] at h
  | cons c r => simp [containsSub, h]

theorem containsSub_append_self (p t : List Char) : containsSub p (p ++ t) = true :=
  containsSub_of_isPrefixOf (isPrefixOf_append_self p t)

theorem containsSub_append_left (a : List Char) {p l : List Char} (h : containsSub p l = true) :
    containsSub p (a ++ l) = true := by
  induction a with
  | nil => simpa using h
  | cons c as ih =>
    show (p.isPrefixOf (c :: (as ++ l)) || containsSub p (as ++ l)) = true
    rw [ih, Bool.or_true]

theorem containsSub_middle (a b c t : List Char) :
    containsSub (a ++ (b ++ c)) (a ++ (b ++ (c ++ t))) = true := by
  have h : a ++ (b ++ (c ++ t)) = (a ++ (b ++ c)) ++ t := by simp [List.append_assoc]
  rw [h]
  exact containsSub_append_self _ _

/-! ### The fallback-content claim -/

/-- C8, amended: the fallback synthesis is a pure function of the address,
title and summary with no network access, and it succeeds for every
address the URL parser accepts (on an unparseable address the new URL
call at its head throws, modelled by none); the content it produces
embeds a direct link to the original address. -/
theorem c8_fallback_succeeds_and_links (url title summary : String) (u : UrlModel)
    (h : parseUrl url = some u) :
    ∃ c : ArticleContent, generateFallbackContent url title summary = some c
      ∧ containsSubStr ("href=\"" ++ url ++ "\"") c.content = true := by
  unfold generateFallbackContent
  rw [h]
  simp only []
  split
  · refine ⟨_, rfl, ?_⟩
    unfold containsSubStr biliFallbackContent
    simp only [String.data_append, List.append_assoc]
    apply containsSub_append_left
    apply containsSub_append_left
    apply containsSub_append_left
    apply containsSub_append_left
    apply containsSub_append_left
    exact containsSub_middle _ _ _ _
  · refine ⟨_, rfl, ?_⟩
    unfold containsSubStr generalFallbackContent
    simp only [String.data_append, List.append_assoc]
    apply containsSub_append_left
    apply containsSub_append_left
    apply containsSub_append_left
    apply containsSub_append_left
    apply containsSub_append_left
    exact containsSub_middle _ _ _ _

/-- C8 counterexample to the claim as stated: on an address the URL
builtin cannot parse, the new URL call at the head of the function
throws, so the synthesis does not succeed for every input. -/
theorem c8_counterexample : generateFallbackContent "not a url" "t" "s" = none := by
  decide

/-- C8 witness: a parseable address produces content linking to it. -/
theorem c8_witness :
    parseUrl "https://www.zhihu.com/question/1" = some ⟨"https", "www.zhihu.com", "/question/1"⟩
    ∧ ∃ c : ArticleContent,
        generateFallbackContent "https://www.zhihu.com/question/1" "" "" = some c
        ∧ containsSubStr ("href=\"" ++ "https://www.zhihu.com/question/1" ++ "\"") c.content = true := by
  refine ⟨by decide, ?_⟩
  exact c8_fallback_succeeds_and_links "https://www.zhihu.com/question/1" "" ""
    ⟨"https", "www.zhihu.com", "/question/1"⟩ (by decide)

/-! ### The webview script-safety claim -/

/-- C2: evaluation at the failing inputs.  First, a fetch failure for an
address that itself contains a script element produces the synthesized
error page, which interpolates the address verbatim, so the returned
document contains a script element.  Second, when the webview transform
throws (here: the page address is not parseable), the catch branch
returns the original unsanitized HTML, scripts included. -/
theorem c2_script_reaches_output :
    fetchArticleHtml "<script>alert(1)</script>" (.failure "fetch failed")
      = generateErrorHtml "<script>alert(1)</script>" "fetch failed"
    ∧ containsSubStr "<script" (fetchArticleHtml "<script>alert(1)</script>" (.failure "fetch failed")) = true
    ∧ processHtmlForWebview [HNode.elem "script" [] [HNode.text "alert(1)"]]
        "<script>alert(1)</script>" "not a url" = "<script>alert(1)</script>" := by
  refine ⟨rfl, ?_, ?_⟩
  · decide
  · rfl

/-! ### The img-source rewriting claim -/

theorem getAttr_setAttrVal : ∀ (a : List (String × String)) (k v : String),
    getAttr (setAttrVal a k v) k = some v
  | [], k, v => by simp [setAttrVal, getAttr]
  | (x, w) :: rest, k, v => by
    by_cases hx : x = k
    · simp [setAttrVal, hx, getAttr]
    · simp [setAttrVal, hx, getAttr, getAttr_setAttrVal rest k v]

theorem getAttr_rewriteSrcAttrs (base : UrlModel) (a : List (String × String)) :
    getAttr (rewriteSrcAttrs base a) "src" = (getAttr a "src").map (resolvedSrc base) := by
  unfold rewriteSrcAttrs resolvedSrc
  cases h : getAttr a "src" with
  | none => simp [h]
  | some src =>
    simp only [Option.map_some]
    by_cases h1 : src = ""
    · simp [h1, h]
    · by_cases h2 : jsStartsWith src "http" = true
      · simp [h1, h2, h]
      · by_cases h3 : jsStartsWith src "data:" = true
        · simp [h1, h2, h3, h]
        · cases hr : resolveUrl base src with
          | some uu => simp [h1, h2, h3, hr, getAttr_setAttrVal]
          | none => simp [h1, h2, h3, hr, h]

theorem imgSrcs_append : ∀ (a b : List HNode), imgSrcs (a ++ b) = imgSrcs a ++ imgSrcs b
  | [], _ => by simp [imgSrcs]
  | .elem tg attrs ch :: rest, b => by
    simp [imgSrcs, imgSrcs_append rest b]
  | .text s :: rest, b => by simp [imgSrcs, imgSrcs_append rest b]

theorem imgSrcs_rewriteImgSrcs (base : UrlModel) :
    ∀ l : List HNode, imgSrcs (rewriteImgSrcs base l)
      = (imgSrcs l).map (Option.map (resolvedSrc base))
  | [] => by simp [imgSrcs, rewriteImgSrcs]
  | .text s :: rest => by
    simp [rewriteImgSrcs, imgSrcs, imgSrcs_rewriteImgSrcs base rest]
  | .elem tg attrs ch :: rest => by
    by_cases htg : tg = "img"
    · simp [rewriteImgSrcs, imgSrcs, htg, getAttr_rewriteSrcAttrs,
        imgSrcs_rewriteImgSrcs base ch, imgSrcs_rewriteImgSrcs base rest]
    · simp [rewriteImgSrcs, imgSrcs, htg,
        imgSrcs_rewriteImgSrcs base ch, imgSrcs_rewriteImgSrcs base rest]

theorem imgSrcs_rewriteStylesheetLinks (base : UrlModel) :
    ∀ l : List HNode, imgSrcs (rewriteStylesheetLinks base l) = imgSrcs l
  | [] => by simp [rewriteStylesheetLinks]
  | .text s :: rest => by
    simp [rewriteStylesheetLinks, imgSrcs, imgSrcs_rewriteStylesheetLinks base rest]
  | .elem tg attrs ch :: rest => by
    by_cases htg : tg = "img"
    · subst htg
      simp [rewriteStylesheetLinks, imgSrcs,
        imgSrcs_rewriteStylesheetLinks base ch, imgSrcs_rewriteStylesheetLinks base rest]
    · simp [rewriteStylesheetLinks, imgSrcs, htg,
        imgSrcs_rewriteStylesheetLinks base ch, imgSrcs_rewriteStylesheetLinks base rest]

theorem imgSrcs_mobileAppendNodes : imgSrcs mobileAppendNodes = [] := by
  simp [mobileAppendNodes, imgSrcs]

theorem imgSrcs_appendMobileHead :
    ∀ l : List HNode, imgSrcs (appendMobileHead l) = imgSrcs l
  | [] => by simp [appendMobileHead]
  | .text s :: rest => by
    simp [appendMobileHead, imgSrcs, imgSrcs_appendMobileHead rest]
  | .elem tg attrs ch :: rest => by
    by_cases htg : tg = "head"
    · simp [appendMobileHead, imgSrcs, htg, imgSrcs_append, imgSrcs_mobileAppendNodes,
        imgSrcs_appendMobileHead ch, imgSrcs_appendMobileHead rest]
    · simp [appendMobileHead, imgSrcs, htg,
        imgSrcs_appendMobileHead ch, imgSrcs_appendMobileHead rest]

/-- C7, amended: the webview transform rewrites the src of every
surviving img element by the per-attribute rule resolvedSrc, which
resolves against the page URL exactly those sources that are non-empty,
do not begin with the literal text http, and do not begin with the data
scheme (the source tests the literal prefix http, not the presence of an
absolute scheme); in particular the claimed concrete instance holds: a
fragment with an img whose src is slash-a-dot-png, processed with page
URL https colon slash slash ex.com slash page, yields an img whose src is
the absolute https colon slash slash ex.com slash a.png. -/
theorem c7_img_src_resolution :
    (∀ (base : UrlModel) (doc : List HNode),
      imgSrcs (processHtmlForWebviewDoc base doc)
        = (imgSrcs (removeAdElems (removeElemsByTag "iframe" (removeElemsByTag "script" doc)))).map
            (Option.map (resolvedSrc base)))
    ∧ containsSubStr "<img src=\"https://ex.com/a.png\">"
        (processHtmlForWebview [HNode.elem "img" [("src", "/a.png")] []] "" "https://ex.com/page")
        = true := by
  constructor
  · intro base doc
    unfold processHtmlForWebviewDoc
    rw [imgSrcs_appendMobileHead, imgSrcs_rewriteStylesheetLinks, imgSrcs_rewriteImgSrcs]
  · have hparse : parseUrl "https://ex.com/page" = some ⟨"https", "ex.com", "/page"⟩ := by decide
    have hresolve : resolveUrl ⟨"https", "ex.com", "/page"⟩ "/a.png"
        = some ⟨"https", "ex.com", "/a.png"⟩ := by decide
    have hstarts1 : jsStartsWith "/a.png" "http" = false := by decide
    have hstarts2 : jsStartsWith "/a.png" "data:" = false := by decide
    have hurl : urlToString ⟨"https", "ex.com", "/a.png"⟩ = "https://ex.com/a.png" := by decide
    have hesc : escAttr "https://ex.com/a.png" = "https://ex.com/a.png" := by decide
    have hads : isAdElem [("src", "/a.png")] = false := by decide
    unfold processHtmlForWebview
    rw [hparse]
    simp [processHtmlForWebviewDoc, removeElemsByTag, removeAdElems, hads,
      getAttr, rewriteImgSrcs, rewriteSrcAttrs, rewriteStylesheetLinks,
      appendMobileHead, renderNodes, renderAttrs, setAttrVal, hresolve, hstarts1, hstarts2,
      hurl, hesc, mobileAppendNodes, voidTags, rawTextTags]
    decide

/-- C7 counterexample to the claim as stated: the source httpx.png does
not begin with an absolute scheme (it contains no colon) and is not a
data URI, so the claim requires it to be resolved against the page URL to
https colon slash slash ex.com slash httpx.png; the transform leaves it
unchanged, because the source code skips anything with the literal prefix
http. -/
theorem c7_counterexample :
    imgSrcs (processHtmlForWebviewDoc ⟨"https", "ex.com", "/page"⟩
        [HNode.elem "img" [("src", "httpx.png")] []]) = [some "httpx.png"]
    ∧ refHasScheme "httpx.png" = false
    ∧ jsStartsWith "httpx.png" "data:" = false
    ∧ resolveUrl ⟨"https", "ex.com", "/page"⟩ "httpx.png" = some ⟨"https", "ex.com", "/httpx.png"⟩
    ∧ urlToString ⟨"https", "ex.com", "/httpx.png"⟩ = "https://ex.com/httpx.png"
    ∧ ("httpx.png" : String) ≠ "https://ex.com/httpx.png" := by
  refine ⟨?_, by decide, by decide, by decide, by decide, by decide⟩
  have hstarts : jsStartsWith "httpx.png" "http" = true := by decide
  have hads : isAdElem [("src", "httpx.png")] = false := by decide
  simp [processHtmlForWebviewDoc, removeElemsByTag, removeAdElems, hads,
    getAttr, rewriteImgSrcs, rewriteSrcAttrs, rewriteStylesheetLinks,
    appendMobileHead, imgSrcs, hstarts, mobileAppendNodes]

/-! ### Supporting facts: the tree-level webview transform itself is
script-free; the script content that claim C2 is about reaches the output
only through the two error paths evaluated above. -/

theorem hasScriptElem_append : ∀ (a b : List HNode),
    hasScriptElem (a ++ b) = (hasScriptElem a || hasScriptElem b)
  | [], b => by simp [hasScriptElem]
  | .elem tg attrs ch :: rest, b => by
    simp [hasScriptElem, hasScriptElem_append rest b, Bool.or_assoc]
  | .text s :: rest, b => by simp [hasScriptElem, hasScriptElem_append rest b]

theorem hasScriptElem_removeScript :
    ∀ l : List HNode, hasScriptElem (removeElemsByTag "script" l) = false
  | [] => by simp [hasScriptElem, removeElemsByTag]
  | .elem tg attrs ch :: rest => by
    by_cases htg : tg = "script"
    · simp [removeElemsByTag, htg, hasScriptElem_removeScript rest]
    · simp [removeElemsByTag, htg, hasScriptElem,
        hasScriptElem_removeScript ch, hasScriptElem_removeScript rest]
  | .text s :: rest => by
    simp [removeElemsByTag, hasScriptElem, hasScriptElem_removeScript rest]

theorem hasScriptElem_removeTag_of (t : String) :
    ∀ l : List HNode, hasScriptElem l = false →
      hasScriptElem (removeElemsByTag t l) = false
  | [], _ => by simp [removeElemsByTag, hasScriptElem]
  | .elem tg attrs ch :: rest, h => by
    simp only [hasScriptElem, Bool.or_eq_false_iff] at h
    by_cases htg : tg = t
    · simp [removeElemsByTag, htg, hasScriptElem_removeTag_of t rest h.2]
    · simp [removeElemsByTag, htg, hasScriptElem, h.1,
        hasScriptElem_removeTag_of t ch h.1.2, hasScriptElem_removeTag_of t rest h.2]
  | .text s :: rest, h => by
    simp only [hasScriptElem] at h
    simp [removeElemsByTag, hasScriptElem, hasScriptElem_removeTag_of t rest h]

theorem hasScriptElem_removeAdElems :
    ∀ l : List HNode, hasScriptElem l = false →
      hasScriptElem (removeAdElems l) = false
  | [], _ => by simp [removeAdElems, hasScriptElem]
  | .elem tg attrs ch :: rest, h => by
    simp only [hasScriptElem, Bool.or_eq_false_iff] at h
    by_cases had : isAdElem attrs = true
    · simp [removeAdElems, had, hasScriptElem_removeAdElems rest h.2]
    · simp [removeAdElems, had, hasScriptElem, h.1,
        hasScriptElem_removeAdElems ch h.1.2, hasScriptElem_removeAdElems rest h.2]
  | .text s :: rest, h => by
    simp only [hasScriptElem] at h
    simp [removeAdElems, hasScriptElem, hasScriptElem_removeAdElems rest h]

theorem hasScriptElem_rewriteImgSrcs (base : UrlModel) :
    ∀ l : List HNode, hasScriptElem (rewriteImgSrcs base l) = hasScriptElem l
  | [] => by simp [rewriteImgSrcs]
  | .elem tg attrs ch :: rest => by
    simp [rewriteImgSrcs, hasScriptElem,
      hasScriptElem_rewriteImgSrcs base ch, hasScriptElem_rewriteImgSrcs base rest]
  | .text s :: rest => by
    simp [rewriteImgSrcs, hasScriptElem, hasScriptElem_rewriteImgSrcs base rest]

theorem hasScriptElem_rewriteStylesheetLinks (base : UrlModel) :
    ∀ l : List HNode, hasScriptElem (rewriteStylesheetLinks base l) = hasScriptElem l
  | [] => by simp [rewriteStylesheetLinks]
  | .elem tg attrs ch :: rest => by
    simp [rewriteStylesheetLinks, hasScriptElem,
      hasScriptElem_rewriteStylesheetLinks base ch, hasScriptElem_rewriteStylesheetLinks base rest]
  | .text s :: rest => by
    simp [rewriteStylesheetLinks, hasScriptElem, hasScriptElem_rewriteStylesheetLinks base rest]

theorem hasScriptElem_mobileAppendNodes : hasScriptElem mobileAppendNodes = false := by
  simp [mobileAppendNodes, hasScriptElem]

theorem hasScriptElem_appendMobileHead :
    ∀ l : List HNode, hasScriptElem (appendMobileHead l) = hasScriptElem l
  | [] => by simp [appendMobileHead]
  | .elem tg attrs ch :: rest => by
    by_cases htg : tg = "head"
    · simp [appendMobileHead, hasScriptElem, htg, hasScriptElem_append,
        hasScriptElem_mobileAppendNodes,
        hasScriptElem_appendMobileHead ch, hasScriptElem_appendMobileHead rest]
    · simp [appendMobileHead, hasScriptElem, htg,
        hasScriptElem_appendMobileHead ch, hasScriptElem_appendMobileHead rest]
  | .text s :: rest => by
    simp [appendMobileHead, hasScriptElem, hasScriptElem_appendMobileHead rest]

/-- When the webview transform runs to completion, its document tree
contains no script element: the failure paths, not the transform, are
what lets script content through. -/
theorem hasScriptElem_processHtmlForWebviewDoc (base : UrlModel) (doc : List HNode) :
    hasScriptElem (processHtmlForWebviewDoc base doc) = false := by
  unfold processHtmlForWebviewDoc
  rw [hasScriptElem_appendMobileHead, hasScriptElem_rewriteStylesheetLinks,
    hasScriptElem_rewriteImgSrcs]
  exact hasScriptElem_removeAdElems _
    (hasScriptElem_removeTag_of "iframe" _ (hasScriptElem_removeScript doc))

end HotNews
